import Mathlib

/-
  Verification development for WaveViz (src/waveviz.py).

  Shallow embedding of the audio-to-visual-frame pipeline implemented in
  waveviz.py.  Python floats are modelled as rationals (with real numbers
  used where the code takes a square root), Python lists and numpy arrays
  as Lean lists, and Python exceptions as an explicit error type threaded
  through Except.  Library behaviour that the code relies on is embedded
  with its documented semantics: numpy max on an empty array raises a
  ValueError, Python int() truncates toward zero, Python floor division
  rounds toward negative infinity, and multiprocessing Pool.map collects
  results by task index regardless of worker completion order.
-/

namespace WaveViz

/-- Errors that a pipeline run can surface.  The first two model the Python
exceptions the code in waveviz.py can actually raise (ZeroDivisionError from
division by zero, ValueError from numpy max over an empty array).  The
constructor invalidConfiguration is modelled from the spec taxonomy in
section 7; the source defines no such error, and the constructor exists so
that statements about it can be expressed and settled against the code. -/
inductive PipelineError where
  | zeroDivisionError
  | valueError
  | invalidConfiguration
deriving DecidableEq, Repr

/-- Python int() applied to a rational: truncation toward zero. -/
def pyInt (q : ℚ) : ℤ :=
  if 0 ≤ q then ⌊q⌋ else ⌈q⌉

/-- Base duration of each frame in seconds, hardcoded at line 27 of
waveviz.py as 0.05. -/
def base_frame_duration : ℚ := 5 / 100

/-- Frame Segmenter, embedding lines 27 to 30 of waveviz.py: given the
sample count, the sample rate and the speed factor it returns the frame
duration, samples_per_frame and num_frames.  Python raises
ZeroDivisionError when speed is zero (line 28) and when samples_per_frame
is zero (floor division at line 30); floor division on integers is
Int.fdiv. -/
def segment (sample_count sr : ℕ) (speed : ℚ) :
    Except PipelineError (ℚ × ℤ × ℤ) :=
  if speed = 0 then .error .zeroDivisionError
  else
    let frame_duration := base_frame_duration / speed
    let samples_per_frame := pyInt (frame_duration * sr)
    if samples_per_frame = 0 then .error .zeroDivisionError
    else .ok (frame_duration, samples_per_frame,
              Int.fdiv sample_count samples_per_frame)

/-- Task list built at lines 33 to 36 of waveviz.py: the pair of start and
end sample indices for each frame.  The Python tuples also carry the shared
read-only sample buffer y; the embedding passes y separately to
compute_rms.  Python range over a non-positive count is empty, hence
Int.toNat. -/
def tasks (samples_per_frame num_frames : ℤ) : List (ℕ × ℕ) :=
  (List.range num_frames.toNat).map
    (fun i => (i * samples_per_frame.toNat, (i + 1) * samples_per_frame.toNat))

/-- Python slice y[start_idx:end_idx] for non-negative bounds. -/
def frame_slice (y : List ℚ) (start_idx end_idx : ℕ) : List ℚ :=
  (y.drop start_idx).take (end_idx - start_idx)

/-- numpy mean of the squares of a list, as used at line 17 of waveviz.py:
sum of squares divided by the length. -/
def meanSq (l : List ℚ) : ℚ :=
  ((l.map fun s => s ^ 2).sum) / l.length

/-- compute_rms, lines 12 to 18 of waveviz.py: slice the buffer, and on a
non-empty slice return the square root of the mean of the squares;
an empty slice yields 0. -/
noncomputable def compute_rms (start_idx end_idx : ℕ) (y : List ℚ) : ℝ :=
  let frame_data := frame_slice y start_idx end_idx
  if 0 < frame_data.length then
    Real.sqrt ((meanSq frame_data : ℚ) : ℝ)
  else 0

/-- Result of pool.map(compute_rms, tasks) at line 46 of waveviz.py:
Pool.map returns results in task order, so the table is the in-order map
of compute_rms over the task list. -/
noncomputable def amplitude_table (y : List ℚ) (samples_per_frame num_frames : ℤ) :
    List ℝ :=
  (tasks samples_per_frame num_frames).map fun p => compute_rms p.1 p.2 y

/-- Execution of the worker pool under an explicit completion schedule,
modelling multiprocessing Pool.map from line 46 of waveviz.py: each entry
of the schedule names a task index whose result is stored at that same
index of the output, whatever order the workers finish in.  Slots never
written stay none. -/
def run_schedule {α β : Type} (f : α → β) (ts : List α) (schedule : List ℕ) :
    List (Option β) :=
  schedule.foldl
    (fun acc i =>
      match ts[i]? with
      | some t => acc.set i (some (f t))
      | none => acc)
    (List.replicate ts.length none)

/-- numpy max over a list, as called at lines 53 and 54 of waveviz.py:
raises a ValueError on an empty array, otherwise folds the binary max over
the elements. -/
def npMax {α : Type} [LinearOrder α] : List α → Except PipelineError α
  | [] => .error .valueError
  | x :: xs => .ok (xs.foldl max x)

/-- Normalizer, lines 52 to 54 of waveviz.py: if the maximum bar height is
positive, divide every entry by it; otherwise leave the table unchanged.
The max call itself raises on an empty table. -/
def normalize {α : Type} [LinearOrderedField α] (bar_heights : List α) :
    Except PipelineError (List α) :=
  match npMax bar_heights with
  | .error e => .error e
  | .ok m => if 0 < m then .ok (bar_heights.map fun x => x / m) else .ok bar_heights

/-- Geometry Mapper core, lines 101 to 107 of waveviz.py: when
segment_size, the integer quotient of the table length by num_bars, is
positive, take the window bar_heights[frame : frame + num_bars] and
right-pad it with zeros to num_bars; otherwise emit num_bars zeros. -/
def update_bar_values {α : Type} [LinearOrderedField α]
    (bar_heights : List α) (num_bars frame : ℕ) : List α :=
  if 0 < bar_heights.length / num_bars then
    let bar_values := (bar_heights.drop frame).take num_bars
    bar_values ++ List.replicate (num_bars - bar_values.length) (0 : α)
  else
    List.replicate num_bars (0 : α)

/-- The three geometry variants accepted at lines 66 to 92 of waveviz.py. -/
inductive WaveformType where
  | bars
  | line
  | circle
deriving DecidableEq, Repr

/-- Display vector consumed by each geometry branch of update, lines 109 to
120 of waveviz.py: the bars and circle branches set one bar height per
entry of bar_values and the line branch uses bar_values as the y data, so
every variant consumes exactly the vector computed at lines 101 to 107. -/
def display_vector {α : Type} [LinearOrderedField α] (wt : WaveformType)
    (bar_heights : List α) (num_bars frame : ℕ) : List α :=
  match wt with
  | .bars => update_bar_values bar_heights num_bars frame
  | .line => update_bar_values bar_heights num_bars frame
  | .circle => update_bar_values bar_heights num_bars frame

/-- Frame rate passed to ani.save at line 126 of waveviz.py:
int(1 / frame_duration). -/
def saved_fps (frame_duration : ℚ) : ℤ :=
  pyInt (1 / frame_duration)

/-- Pipeline composition of create_audio_visualization, lines 21 to 126 of
waveviz.py, restricted to its computational content: segmentation,
amplitude extraction, normalization, the per-tick display vectors of the
animation, and the frame rate handed to ani.save.  The fps argument is the
one received at line 21; the body of the Python function never reads it. -/
noncomputable def create_audio_visualization (y : List ℚ) (sr : ℕ) (speed : ℚ)
    (num_bars : ℕ) (fps : ℤ) :
    Except PipelineError (List ℝ × List (List ℝ) × ℤ) :=
  match segment y.length sr speed with
  | .error e => .error e
  | .ok (frame_duration, samples_per_frame, num_frames) =>
    match normalize (amplitude_table y samples_per_frame num_frames) with
    | .error e => .error e
    | .ok bar_heights =>
      .ok (bar_heights,
           (List.range num_frames.toNat).map
             (fun frame => update_bar_values bar_heights num_bars frame),
           saved_fps frame_duration)

/-- Geometry mapping as the spec words it in section 4.4 and in claim C1:
always take the window table[t : t + num_bars] and right-pad with zeros to
length num_bars.  Stated for comparison with update_bar_values. -/
def window_pad_spec {α : Type} [LinearOrderedField α]
    (table : List α) (num_bars t : ℕ) : List α :=
  let w := (table.drop t).take num_bars
  w ++ List.replicate (num_bars - w.length) (0 : α)

/-- samples_per_frame as the spec words it in section 4.1 and claim C6:
round(frame_duration times sample_rate), rounding to nearest.  Stated for
comparison with the pyInt truncation used by segment. -/
def samples_per_frame_round (frame_duration : ℚ) (sr : ℕ) : ℤ :=
  round (frame_duration * sr)

/-- The initial accumulator is below a fold of the binary max over a list. -/
theorem foldl_max_init_le {α : Type} [LinearOrder α] (xs : List α) (a : α) :
    a ≤ xs.foldl max a := by
  induction xs generalizing a with
  | nil => simp
  | cons x xs ih => exact le_trans (le_max_left a x) (ih (max a x))

/-- Every element of a non-empty list is below the fold of the binary max
over its tail started at its head. -/
theorem le_foldl_max_of_mem {α : Type} [LinearOrder α] {xs : List α} {a z : α}
    (hz : z ∈ a :: xs) : z ≤ xs.foldl max a := by
  induction xs generalizing a with
  | nil =>
    simp only [List.mem_singleton] at hz
    simp [hz]
  | cons y ys ih =>
    rw [List.foldl_cons]
    rcases List.mem_cons.mp hz with rfl | h
    · exact le_trans (le_max_left z y) (foldl_max_init_le ys _)
    · rcases List.mem_cons.mp h with rfl | h2
      · exact le_trans (le_max_right a z) (foldl_max_init_le ys _)
      · exact ih (List.mem_cons_of_mem _ h2)

/-- The fold of the binary max over a list is one of its elements or the
initial accumulator. -/
theorem foldl_max_mem {α : Type} [LinearOrder α] (xs : List α) (a : α) :
    xs.foldl max a ∈ a :: xs := by
  induction xs generalizing a with
  | nil => simp
  | cons y ys ih =>
    have h := ih (max a y)
    rcases List.mem_cons.mp h with he | he
    · rcases max_choice a y with hc | hc <;> rw [List.foldl_cons, he, hc]
      · exact List.mem_cons_self _ _
      · exact List.mem_cons_of_mem _ (List.mem_cons_self _ _)
    · exact List.mem_cons_of_mem _ (List.mem_cons_of_mem _ he)

/-- C1, counterexample.  The claim asserts that the display vector always
equals the window table[t : t + num_bars] right-padded with zeros, and in
particular that a table of length 5 with num_bars 8 at tick 3 yields the 2
real entries followed by 6 zeros.  On the code, segment_size is 5 / 8 = 0,
so update emits eight zeros and discards the real entries. -/
theorem c1_counterexample :
    update_bar_values ([1, 1, 1, 1, 1] : List ℚ) 8 3 = List.replicate 8 0 ∧
    window_pad_spec ([1, 1, 1, 1, 1] : List ℚ) 8 3 = [1, 1, 0, 0, 0, 0, 0, 0] ∧
    update_bar_values ([1, 1, 1, 1, 1] : List ℚ) 8 3 ≠
      window_pad_spec ([1, 1, 1, 1, 1] : List ℚ) 8 3 := by
  refine ⟨by simp [update_bar_values], by simp [window_pad_spec, List.replicate], ?_⟩
  simp [update_bar_values, window_pad_spec, List.replicate]

/-- C1, amended.  For every tick t and positive num_bars, the display
vector equals the zero-padded window table[t : t + num_bars] when the
table holds at least num_bars entries, and is all zeros otherwise. -/
theorem c1_thm (table : List ℚ) (num_bars t : ℕ) (h : 0 < num_bars) :
    update_bar_values table num_bars t =
      if num_bars ≤ table.length then window_pad_spec table num_bars t
      else List.replicate num_bars 0 := by
  unfold update_bar_values window_pad_spec
  rcases le_or_lt num_bars table.length with hle | hlt
  · rw [if_pos (Nat.div_pos hle h), if_pos hle]
  · rw [if_neg, if_neg (Nat.not_le.mpr hlt)]
    simp [Nat.div_eq_zero_iff h, hlt]

/-- C1, witness: the amended statement instantiated at the table of length
5 from Scenario D with num_bars 8 and tick 3. -/
theorem c1_witness :
    update_bar_values ([1, 1, 1, 1, 1] : List ℚ) 8 3 =
      if 8 ≤ ([1, 1, 1, 1, 1] : List ℚ).length
      then window_pad_spec ([1, 1, 1, 1, 1] : List ℚ) 8 3
      else List.replicate 8 0 :=
  c1_thm [1, 1, 1, 1, 1] 8 3 (by norm_num)

/-- C8: for every tick, every table and every geometry variant, the
display vector emitted by update has length exactly num_bars, provided
num_bars is positive as the GeometryConfig invariant requires. -/
theorem c8_thm (wt : WaveformType) (table : List ℝ) (num_bars t : ℕ)
    (h : 0 < num_bars) :
    (display_vector wt table num_bars t).length = num_bars := by
  have hu : (update_bar_values table num_bars t).length = num_bars := by
    unfold update_bar_values
    split
    · simp
    · simp
  cases wt <;> simpa [display_vector] using hu

/-- C8, witness: the length invariant at a concrete table, tick and
num_bars for each of the three geometry variants. -/
theorem c8_witness :
    (display_vector WaveformType.bars ([1, 1/2] : List ℝ) 3 1).length = 3 ∧
    (display_vector WaveformType.line ([1, 1/2] : List ℝ) 3 1).length = 3 ∧
    (display_vector WaveformType.circle ([1, 1/2] : List ℝ) 3 1).length = 3 :=
  ⟨c8_thm WaveformType.bars [1, 1/2] 3 1 (by norm_num),
   c8_thm WaveformType.line [1, 1/2] 3 1 (by norm_num),
   c8_thm WaveformType.circle [1, 1/2] 3 1 (by norm_num)⟩

/-- C5: on a non-empty raw AmplitudeTable of non-negative entries with
peak the maximum entry, normalization succeeds without dividing by zero;
when the peak is positive every entry is rescaled to entry / peak, the
results lie in the closed unit interval and their maximum is exactly 1;
when the peak is zero the table is left unchanged and every entry is 0. -/
theorem c5_thm (table : List ℝ) (hne : table ≠ [])
    (hnn : ∀ x ∈ table, 0 ≤ x) :
    ∃ peak out, npMax table = .ok peak ∧ normalize table = .ok out ∧
      (0 < peak →
        out = table.map (fun x => x / peak) ∧
        (∀ v ∈ out, 0 ≤ v ∧ v ≤ 1) ∧
        npMax out = .ok 1) ∧
      (peak = 0 → out = table ∧ ∀ v ∈ table, v = 0) := by
  obtain ⟨x, xs, rfl⟩ := List.exists_cons_of_ne_nil hne
  set peak := xs.foldl max x with hpeak
  have hmax : npMax (x :: xs) = .ok peak := rfl
  have hle : ∀ z ∈ x :: xs, z ≤ peak := fun z hz => le_foldl_max_of_mem hz
  have hpmem : peak ∈ x :: xs := foldl_max_mem xs x
  have hpnn : 0 ≤ peak := hnn peak hpmem
  by_cases hp : 0 < peak
  · refine ⟨peak, (x :: xs).map (fun v => v / peak), hmax, ?_, ?_, ?_⟩
    · unfold normalize
      rw [hmax]
      simp [hp]
    · intro _
      refine ⟨rfl, ?_, ?_⟩
      · intro v hv
        obtain ⟨w, hw, rfl⟩ := List.mem_map.mp hv
        exact ⟨div_nonneg (hnn w hw) hpnn, (div_le_one hp).mpr (hle w hw)⟩
      · have hone : peak / peak = 1 := div_self (ne_of_gt hp)
        have hmem1 : (1 : ℝ) ∈ (x :: xs).map (fun v => v / peak) := by
          rw [← hone]
          exact List.mem_map_of_mem _ hpmem
        have hzz : (x :: xs).map (fun v => v / peak)
            = x / peak :: xs.map (fun v => v / peak) := by simp
        rw [hzz]
        have hnp : npMax (x / peak :: xs.map (fun v => v / peak))
            = .ok ((xs.map (fun v => v / peak)).foldl max (x / peak)) := rfl
        rw [hnp]
        refine congrArg Except.ok (le_antisymm ?_ ?_)
        · have hm := foldl_max_mem (xs.map (fun v => v / peak)) (x / peak)
          rw [← hzz] at hm
          obtain ⟨u, hu, he⟩ := List.mem_map.mp hm
          rw [← he]
          exact (div_le_one hp).mpr (hle u hu)
        · rw [hzz] at hmem1
          exact le_foldl_max_of_mem hmem1
    · intro h0
      rw [h0] at hp
      exact absurd hp (lt_irrefl 0)
  · have hpeak0 : peak = 0 := le_antisymm (not_lt.mp hp) hpnn
    refine ⟨peak, x :: xs, hmax, ?_, ?_, ?_⟩
    · unfold normalize
      rw [hmax]
      simp [hp]
    · intro h
      exact absurd h hp
    · intro _
      exact ⟨rfl, fun v hv => le_antisymm (hpeak0 ▸ hle v hv) (hnn v hv)⟩

/-- C5, witness: normalization of the concrete table with entries 1/2 and
1/4, which has positive peak 1/2. -/
theorem c5_witness :
    ∃ peak out, npMax ([1/2, 1/4] : List ℝ) = .ok peak ∧
      normalize ([1/2, 1/4] : List ℝ) = .ok out ∧
      (0 < peak →
        out = ([1/2, 1/4] : List ℝ).map (fun x => x / peak) ∧
        (∀ v ∈ out, 0 ≤ v ∧ v ≤ 1) ∧
        npMax out = .ok 1) ∧
      (peak = 0 → out = ([1/2, 1/4] : List ℝ) ∧
        ∀ v ∈ ([1/2, 1/4] : List ℝ), v = 0) :=
  c5_thm [1/2, 1/4] (by simp) (by norm_num)

/-- Each step of the pool fold preserves the length of the accumulator. -/
theorem run_schedule_step_length {α β : Type} (f : α → β) (ts : List α)
    (i : ℕ) (acc : List (Option β)) (hacc : acc.length = ts.length) :
    ((match ts[i]? with
      | some t => acc.set i (some (f t))
      | none => acc) : List (Option β)).length = ts.length := by
  by_cases hi : i < ts.length
  · rw [List.getElem?_eq_getElem hi]
    simpa using hacc
  · rw [List.getElem?_eq_none (le_of_not_lt hi)]
    exact hacc

/-- Entry j of the pool fold holds the result of task j as soon as j has
appeared in the completion schedule, and is untouched otherwise. -/
theorem run_schedule_foldl_getElem {α β : Type} (f : α → β) (ts : List α)
    (sched : List ℕ) (acc : List (Option β)) (hacc : acc.length = ts.length)
    (j : ℕ) :
    (sched.foldl
      (fun acc i =>
        match ts[i]? with
        | some t => acc.set i (some (f t))
        | none => acc)
      acc)[j]? =
      if j ∈ sched ∧ j < ts.length then (ts.map fun t => some (f t))[j]?
      else acc[j]? := by
  induction sched generalizing acc with
  | nil => simp
  | cons i rest ih =>
    rw [List.foldl_cons]
    rw [ih _ (run_schedule_step_length f ts i acc hacc)]
    by_cases hrest : j ∈ rest ∧ j < ts.length
    · rw [if_pos hrest, if_pos ⟨List.mem_cons_of_mem _ hrest.1, hrest.2⟩]
    · rw [if_neg hrest]
      by_cases hji : j = i
      · subst hji
        by_cases hj : j < ts.length
        · rw [if_pos ⟨List.mem_cons_self _ _, hj⟩]
          rw [List.getElem?_eq_getElem hj]
          rw [List.getElem?_set]
          rw [if_pos rfl, if_pos (hacc ▸ hj)]
          rw [List.getElem?_map, List.getElem?_eq_getElem hj]
          rfl
        · rw [if_neg (fun h => hj h.2)]
          rw [List.getElem?_eq_none (le_of_not_lt hj)]
      · have hcond : ¬(j ∈ i :: rest ∧ j < ts.length) := by
          intro h
          rcases List.mem_cons.mp h.1 with he | hm
          · exact hji he
          · exact hrest ⟨hm, h.2⟩
        rw [if_neg hcond]
        by_cases hi : i < ts.length
        · rw [List.getElem?_eq_getElem hi, List.getElem?_set,
              if_neg (fun h => hji h.symm)]
        · rw [List.getElem?_eq_none (le_of_not_lt hi)]

/-- When the completion schedule is a permutation of the task indices, the
pool run produces exactly the in-order map of the worker function over the
task list, independently of the completion order. -/
theorem run_schedule_eq_map {α β : Type} (f : α → β) (ts : List α)
    (sched : List ℕ) (hperm : sched.Perm (List.range ts.length)) :
    run_schedule f ts sched = ts.map fun t => some (f t) := by
  apply List.ext_getElem?
  intro j
  rw [run_schedule, run_schedule_foldl_getElem f ts sched _ (by simp) j]
  by_cases hj : j < ts.length
  · rw [if_pos ⟨hperm.mem_iff.mpr (List.mem_range.mpr hj), hj⟩]
  · rw [if_neg (fun h => hj h.2)]
    rw [List.getElem?_eq_none (by simpa using le_of_not_lt hj),
        List.getElem?_eq_none (by simpa using le_of_not_lt hj)]

/-- C4: for every completion schedule that is a permutation of the task
indices, the worker pool yields exactly the in-order amplitude table, so
the table is index-aligned and bit-identical for 1 worker, N workers, or
any completion order; moreover entry i of the table is the RMS of frame i,
computed over samples [i times samples_per_frame, (i+1) times
samples_per_frame). -/
theorem c4_thm (y : List ℚ) (samples_per_frame num_frames : ℤ)
    (schedule : List ℕ)
    (hperm : schedule.Perm
      (List.range (tasks samples_per_frame num_frames).length)) :
    run_schedule (fun p => compute_rms p.1 p.2 y)
        (tasks samples_per_frame num_frames) schedule
        = (amplitude_table y samples_per_frame num_frames).map some ∧
      ∀ i, i < num_frames.toNat →
        (amplitude_table y samples_per_frame num_frames)[i]? =
          some (compute_rms (i * samples_per_frame.toNat)
            ((i + 1) * samples_per_frame.toNat) y) := by
  constructor
  · rw [run_schedule_eq_map _ _ _ hperm, amplitude_table, List.map_map]
    rfl
  · intro i hi
    rw [amplitude_table, List.getElem?_map, tasks, List.getElem?_map,
        List.getElem?_range hi]
    rfl

/-- C4, witness: two tasks completed in reversed order still produce the
in-order, index-aligned amplitude table. -/
theorem c4_witness :
    run_schedule (fun p => compute_rms p.1 p.2 [0, 1]) (tasks 1 2) [1, 0]
        = (amplitude_table [0, 1] 1 2).map some ∧
      ∀ i, i < (2 : ℤ).toNat →
        (amplitude_table [0, 1] 1 2)[i]? =
          some (compute_rms (i * (1 : ℤ).toNat) ((i + 1) * (1 : ℤ).toNat) [0, 1]) :=
  c4_thm [0, 1] 1 2 [1, 0] (by decide)

/-- C6, counterexample.  The claim asserts samples_per_frame is computed
by rounding to nearest.  At speed 3 and sample rate 22050 the product
frame_duration times sample_rate is 367.5: the code truncates it to 367
while rounding to nearest gives 368. -/
theorem c6_counterexample :
    segment 22050 22050 3 = .ok (1/60, 367, 60) ∧
    samples_per_frame_round ((5 : ℚ)/100 / 3) 22050 = 368 ∧
    (367 : ℤ) ≠ 368 := by
  refine ⟨?_, ?_, by decide⟩
  · have h1 : pyInt (base_frame_duration / 3 * (22050 : ℕ)) = 367 := by
      unfold pyInt base_frame_duration
      norm_num
    unfold segment
    rw [if_neg (by norm_num)]
    simp only [h1]
    rw [if_neg (by norm_num)]
    refine congrArg Except.ok ?_
    refine Prod.ext ?_ (Prod.ext ?_ ?_)
    · unfold base_frame_duration
      push_cast
      norm_num
    · rfl
    · decide
  · unfold samples_per_frame_round
    rw [round_eq]
    push_cast
    norm_num

/-- C6, amended.  For positive speed, the code computes frame_duration as
base_duration / speed, samples_per_frame as the truncation (here the
floor, the product being non-negative) of frame_duration times
sample_rate rather than the rounding to nearest, and frame_count as the
floor of sample_count / samples_per_frame; stated whenever the resulting
samples_per_frame is at least 1, where the code raises nothing. -/
theorem c6_thm (n sr : ℕ) (speed : ℚ) (hspeed : 0 < speed)
    (hspf : 1 ≤ ⌊base_frame_duration / speed * sr⌋) :
    segment n sr speed =
      .ok (base_frame_duration / speed, ⌊base_frame_duration / speed * sr⌋,
        ⌊(n : ℚ) / ((⌊base_frame_duration / speed * sr⌋ : ℤ) : ℚ)⌋) := by
  have hs0 : speed ≠ 0 := ne_of_gt hspeed
  have hq : 0 ≤ base_frame_duration / speed * sr := by
    apply mul_nonneg
    · apply div_nonneg _ (le_of_lt hspeed)
      norm_num [base_frame_duration]
    · positivity
  have hpy : pyInt (base_frame_duration / speed * sr)
      = ⌊base_frame_duration / speed * sr⌋ := by
    unfold pyInt
    rw [if_pos hq]
  unfold segment
  rw [if_neg hs0]
  simp only [hpy]
  rw [if_neg (by omega)]
  refine congrArg Except.ok (Prod.ext rfl (Prod.ext rfl ?_))
  have h0spf : 0 ≤ ⌊base_frame_duration / speed * sr⌋ := by omega
  rw [Int.fdiv_eq_ediv _ h0spf]
  rw [show (⌊base_frame_duration / speed * sr⌋ : ℤ)
        = ((⌊base_frame_duration / speed * sr⌋.toNat : ℕ) : ℤ)
      from (Int.toNat_of_nonneg h0spf).symm]
  rw [← Rat.floor_intCast_div_natCast (n : ℤ) ⌊base_frame_duration / speed * sr⌋.toNat]
  push_cast
  rfl

/-- C6, witness: the amended statement instantiated at Scenario A, a
22050-sample signal at 22050 Hz and speed 1, where samples_per_frame is
1102 and frame_count 20. -/
theorem c6_witness :
    1 ≤ ⌊base_frame_duration / 1 * ((22050 : ℕ) : ℚ)⌋ ∧
    segment 22050 22050 1 =
      .ok (base_frame_duration / 1, ⌊base_frame_duration / 1 * ((22050 : ℕ) : ℚ)⌋,
        ⌊((22050 : ℕ) : ℚ) / ((⌊base_frame_duration / 1 * ((22050 : ℕ) : ℚ)⌋ : ℤ) : ℚ)⌋) :=
  ⟨by unfold base_frame_duration; push_cast; norm_num,
   c6_thm 22050 22050 1 (by norm_num)
     (by unfold base_frame_duration; push_cast; norm_num)⟩

/-- On a negative speed, the truncated samples_per_frame computed by the
code is non-positive. -/
theorem pyInt_nonpos_of_speed_neg (sr : ℕ) (speed : ℚ) (hneg : speed < 0) :
    pyInt (base_frame_duration / speed * sr) ≤ 0 := by
  have hfd : base_frame_duration / speed < 0 :=
    div_neg_of_pos_of_neg (by norm_num [base_frame_duration]) hneg
  have hq : base_frame_duration / speed * sr ≤ 0 :=
    mul_nonpos_iff.mpr (Or.inr ⟨le_of_lt hfd, by positivity⟩)
  unfold pyInt
  split
  · exact Int.floor_nonpos hq
  · exact Int.ceil_le.mpr (by exact_mod_cast hq)

/-- On a positive speed, the truncated samples_per_frame computed by the
code is non-negative. -/
theorem pyInt_nonneg_of_speed_pos (sr : ℕ) (speed : ℚ) (hpos : 0 < speed) :
    0 ≤ pyInt (base_frame_duration / speed * sr) := by
  have hq : 0 ≤ base_frame_duration / speed * sr := by
    apply mul_nonneg
    · apply div_nonneg _ (le_of_lt hpos)
      norm_num [base_frame_duration]
    · positivity
  unfold pyInt
  rw [if_pos hq]
  exact Int.floor_nonneg.mpr hq

/-- C3, counterexample.  The claim asserts that every configuration with
non-positive speed, or with computed samples_per_frame below 1, fails with
an InvalidConfiguration error before any parallel work.  At speed -1 the
code raises nothing at all: segmentation completes and returns a negative
samples_per_frame of -1102 and a negative frame count of -21, which is not
an error, let alone the claimed one.  At the positive speed 2000 the
computed samples_per_frame is 0 (below 1) and the code raises a
division-by-zero error at the frame count, again not the claimed
InvalidConfiguration error. -/
theorem c3_counterexample :
    ((-1 : ℚ) ≤ 0) ∧
    segment 22050 22050 (-1) = .ok (-1/20, -1102, -21) ∧
    (Except.ok ((-1/20 : ℚ), (-1102 : ℤ), (-21 : ℤ)) ≠
      (Except.error PipelineError.invalidConfiguration :
        Except PipelineError (ℚ × ℤ × ℤ))) ∧
    pyInt (base_frame_duration / 2000 * (22050 : ℕ)) < 1 ∧
    segment 22050 22050 2000 = .error .zeroDivisionError ∧
    ((Except.error PipelineError.zeroDivisionError :
        Except PipelineError (ℚ × ℤ × ℤ)) ≠
      .error PipelineError.invalidConfiguration) := by
  have h2000 : pyInt (base_frame_duration / 2000 * (22050 : ℕ)) = 0 := by
    unfold pyInt base_frame_duration
    norm_num
  refine ⟨by norm_num, ?_, by simp, by rw [h2000]; decide, ?_, by simp⟩
  · have h1 : pyInt (base_frame_duration / (-1) * (22050 : ℕ)) = -1102 := by
      unfold pyInt base_frame_duration
      rw [if_neg (by norm_num)]
      norm_num [Int.ceil_neg]
    unfold segment
    rw [if_neg (by norm_num)]
    simp only [h1]
    rw [if_neg (by norm_num)]
    refine congrArg Except.ok ?_
    refine Prod.ext ?_ (Prod.ext ?_ ?_)
    · unfold base_frame_duration
      push_cast
      norm_num
    · rfl
    · decide
  · unfold segment
    rw [if_neg (by norm_num)]
    simp only [h2000]
    simp

/-- C3, amended.  The code performs no configuration validation and never
reports an InvalidConfiguration error, on either prong of the claim: for
every configuration with non-positive speed or with computed
samples_per_frame below 1, it raises a division-by-zero error at
segmentation (speed zero) or at the frame count (samples_per_frame zero,
which covers every positive speed whose samples_per_frame is below 1), or,
when samples_per_frame is negative, continues without any error, producing
a non-positive frame count and an empty task list so that the parallel
stage receives no work. -/
theorem c3_thm (n sr : ℕ) (speed : ℚ)
    (hbad : speed ≤ 0 ∨ pyInt (base_frame_duration / speed * sr) < 1) :
    (segment n sr speed = .error .zeroDivisionError ∨
      ∃ fd spf nf, segment n sr speed = .ok (fd, spf, nf) ∧ spf < 0 ∧ nf ≤ 0 ∧
        tasks spf nf = []) ∧
    segment n sr speed ≠ .error .invalidConfiguration := by
  by_cases hs0 : speed = 0
  · unfold segment
    rw [if_pos hs0]
    exact ⟨Or.inl rfl, by simp⟩
  · have hpy : pyInt (base_frame_duration / speed * sr) ≤ 0 := by
      rcases lt_or_gt_of_ne hs0 with hneg | hpos
      · exact pyInt_nonpos_of_speed_neg sr speed hneg
      · rcases hbad with h | h
        · exact absurd hpos (not_lt.mpr h)
        · have h0 := pyInt_nonneg_of_speed_pos sr speed hpos
          omega
    unfold segment
    rw [if_neg hs0]
    by_cases hz : pyInt (base_frame_duration / speed * sr) = 0
    · rw [if_pos hz]
      exact ⟨Or.inl rfl, by simp⟩
    · rw [if_neg hz]
      have hlt : pyInt (base_frame_duration / speed * sr) < 0 :=
        lt_of_le_of_ne hpy hz
      have hnf : Int.fdiv n (pyInt (base_frame_duration / speed * sr)) ≤ 0 :=
        Int.fdiv_nonpos (Int.natCast_nonneg n) (le_of_lt hlt)
      refine ⟨Or.inr ⟨_, _, _, rfl, hlt, hnf, ?_⟩, by simp⟩
      unfold tasks
      rw [Int.toNat_of_nonpos hnf]
      rfl

/-- C3, witness: the amended statement instantiated on both prongs of the
claim, at the negative speed -1 (segmentation succeeds with a negative
samples_per_frame and empty tasks) and at the positive speed 2000 whose
computed samples_per_frame is 0 (division-by-zero error, not an
InvalidConfiguration error). -/
theorem c3_witness :
    ((segment 22050 22050 (-1) = .error .zeroDivisionError ∨
      ∃ fd spf nf, segment 22050 22050 (-1) = .ok (fd, spf, nf) ∧
        spf < 0 ∧ nf ≤ 0 ∧ tasks spf nf = []) ∧
      segment 22050 22050 (-1) ≠ .error .invalidConfiguration) ∧
    ((segment 22050 22050 2000 = .error .zeroDivisionError ∨
      ∃ fd spf nf, segment 22050 22050 2000 = .ok (fd, spf, nf) ∧
        spf < 0 ∧ nf ≤ 0 ∧ tasks spf nf = []) ∧
      segment 22050 22050 2000 ≠ .error .invalidConfiguration) :=
  ⟨c3_thm 22050 22050 (-1) (Or.inl (by norm_num)),
   c3_thm 22050 22050 2000 (Or.inr (by unfold pyInt base_frame_duration; norm_num))⟩

/-- C9, counterexample.  The claim asserts the saved playback frame rate
is exactly 1 / frame_duration.  At speed 1.11 the code computes
frame_duration 5/111, whose reciprocal is 22.2 frames per second, but it
hands the truncated integer 22 to the video writer. -/
theorem c9_counterexample :
    segment 22050 22050 (111/100) = .ok (5/111, 993, 22) ∧
    saved_fps ((5 : ℚ)/111) = 22 ∧
    1 / ((5 : ℚ)/111) = 111/5 ∧
    ((22 : ℚ)) ≠ 111/5 := by
  refine ⟨?_, ?_, by norm_num, by norm_num⟩
  · have h1 : pyInt (base_frame_duration / (111/100) * (22050 : ℕ)) = 993 := by
      unfold pyInt base_frame_duration
      norm_num
    unfold segment
    rw [if_neg (by norm_num)]
    simp only [h1]
    rw [if_neg (by norm_num)]
    refine congrArg Except.ok ?_
    refine Prod.ext ?_ (Prod.ext ?_ ?_)
    · unfold base_frame_duration
      push_cast
      norm_num
    · rfl
    · decide
  · unfold saved_fps pyInt
    norm_num

/-- C9, amended.  For every positive speed, the frame rate handed to the
video writer is the truncation of 1 / frame_duration, namely the floor of
20 times speed; it equals 1 / frame_duration exactly only when 20 times
speed is an integer. -/
theorem c9_thm (speed : ℚ) (hspeed : 0 < speed) :
    saved_fps (base_frame_duration / speed) = ⌊(20 : ℚ) * speed⌋ := by
  have hs0 : speed ≠ 0 := ne_of_gt hspeed
  have h1 : 1 / (base_frame_duration / speed) = 20 * speed := by
    unfold base_frame_duration
    field_simp
    ring
  unfold saved_fps pyInt
  rw [h1, if_pos (by positivity)]

/-- C9, witness: at speed 1 the saved frame rate is the floor of 20. -/
theorem c9_witness :
    saved_fps (base_frame_duration / 1) = ⌊(20 : ℚ) * 1⌋ :=
  c9_thm 1 (by norm_num)

/-- C7: for every frame boundary pair, the computed amplitude is
non-negative, its square is the arithmetic mean of the squared samples of
the slice (so the value is the non-negative square root of the mean of
the squares, with no windowing or weighting), and an empty slice yields
exactly 0. -/
theorem c7_thm (start_idx end_idx : ℕ) (y : List ℚ) :
    0 ≤ compute_rms start_idx end_idx y ∧
    (compute_rms start_idx end_idx y) ^ 2
      = ((meanSq (frame_slice y start_idx end_idx) : ℚ) : ℝ) ∧
    (frame_slice y start_idx end_idx = [] →
      compute_rms start_idx end_idx y = 0) := by
  unfold compute_rms
  by_cases hlen : 0 < (frame_slice y start_idx end_idx).length
  · rw [if_pos hlen]
    have hms : 0 ≤ meanSq (frame_slice y start_idx end_idx) := by
      unfold meanSq
      apply div_nonneg
      · apply List.sum_nonneg
        intro x hx
        obtain ⟨s, _, rfl⟩ := List.mem_map.mp hx
        positivity
      · positivity
    refine ⟨Real.sqrt_nonneg _, Real.sq_sqrt (by exact_mod_cast hms), ?_⟩
    intro he
    rw [he] at hlen
    simp at hlen
  · rw [if_neg hlen]
    have he : frame_slice y start_idx end_idx = [] :=
      List.length_eq_zero.mp (Nat.eq_zero_of_not_pos hlen)
    refine ⟨le_refl 0, ?_, fun _ => rfl⟩
    rw [he]
    unfold meanSq
    simp

/-- C7, witness: the characterization instantiated at the slice of
Scenario B, the four samples of value 1 taken as one frame. -/
theorem c7_witness :
    0 ≤ compute_rms 0 4 [1, 1, 1, 1] ∧
    (compute_rms 0 4 [1, 1, 1, 1]) ^ 2
      = ((meanSq (frame_slice [1, 1, 1, 1] 0 4) : ℚ) : ℝ) ∧
    (frame_slice [1, 1, 1, 1] 0 4 = [] → compute_rms 0 4 [1, 1, 1, 1] = 0) :=
  c7_thm 0 4 [1, 1, 1, 1]

/-- Concrete segmentation of a 1-sample signal at 40 Hz and speed 1:
samples_per_frame is 2 and the frame count is 0. -/
theorem segment_short_signal : segment 1 40 1 = .ok (1/20, 2, 0) := by
  have h1 : pyInt (base_frame_duration / 1 * (40 : ℕ)) = 2 := by
    unfold pyInt base_frame_duration
    norm_num
  unfold segment
  rw [if_neg (by norm_num)]
  simp only [h1]
  rw [if_neg (by norm_num)]
  refine congrArg Except.ok ?_
  refine Prod.ext ?_ (Prod.ext ?_ ?_)
  · unfold base_frame_duration
    push_cast
    norm_num
  · rfl
  · decide

/-- C2, counterexample.  The claim asserts that a signal shorter than one
frame runs to completion with no error.  On the one-sample signal [1/2]
at 40 Hz and speed 1 (samples_per_frame 2), the amplitude table is empty
and the normalization step calls numpy max on an empty array, which
raises a ValueError: the run fails instead of performing zero ticks. -/
theorem c2_counterexample :
    create_audio_visualization [1/2] 40 1 5 30 = .error .valueError := by
  have hamp : amplitude_table [1/2] 2 0 = [] := by
    unfold amplitude_table tasks
    rfl
  have hnorm : normalize ([] : List ℝ) = .error .valueError := rfl
  have hlen : ([1/2] : List ℚ).length = 1 := rfl
  unfold create_audio_visualization
  rw [hlen, segment_short_signal]
  simp only [hamp, hnorm]

/-- C2, amended.  A signal shorter than one frame still yields
frame_count 0 and an empty AmplitudeTable, but the run then raises a
ValueError at normalization (numpy max of an empty array) rather than
degrading and performing zero ticks; for a non-empty all-silent
amplitude table, normalization does degrade to the unchanged all-zero
table without failing. -/
theorem c2_thm :
    (∀ (y : List ℚ) (sr : ℕ) (speed : ℚ) (num_bars : ℕ) (fps : ℤ)
        (fd : ℚ) (spf nf : ℤ),
      segment y.length sr speed = .ok (fd, spf, nf) → 0 < spf →
      (y.length : ℤ) < spf →
      nf = 0 ∧ amplitude_table y spf nf = [] ∧
      create_audio_visualization y sr speed num_bars fps
        = .error .valueError) ∧
    (∀ l : List ℝ, l ≠ [] → (∀ x ∈ l, x = 0) → normalize l = .ok l) := by
  constructor
  · intro y sr speed num_bars fps fd spf nf hseg hpos hlt
    have hseg0 := hseg
    unfold segment at hseg
    by_cases hs0 : speed = 0
    · rw [if_pos hs0] at hseg
      cases hseg
    · rw [if_neg hs0] at hseg
      by_cases hz : pyInt (base_frame_duration / speed * sr) = 0
      · rw [if_pos hz] at hseg
        cases hseg
      · rw [if_neg hz] at hseg
        simp only [Except.ok.injEq, Prod.mk.injEq] at hseg
        obtain ⟨hfd, hspf, hnfv⟩ := hseg
        have hnf : nf = 0 := by
          rw [← hnfv, hspf, Int.fdiv_eq_ediv _ (le_of_lt hpos)]
          exact Int.ediv_eq_zero_of_lt (Int.natCast_nonneg _) hlt
        subst hnf
        have hamp : amplitude_table y spf 0 = [] := by
          unfold amplitude_table tasks
          rfl
        have hnorm : normalize ([] : List ℝ) = .error .valueError := rfl
        refine ⟨rfl, hamp, ?_⟩
        unfold create_audio_visualization
        rw [hseg0]
        simp only [hamp, hnorm]
  · intro l hne hz
    obtain ⟨x, xs, rfl⟩ := List.exists_cons_of_ne_nil hne
    have hpeak : xs.foldl max x = 0 := hz _ (foldl_max_mem xs x)
    have hnp : npMax (x :: xs) = .ok (xs.foldl max x) := rfl
    unfold normalize
    rw [hnp, hpeak]
    simp

/-- C2, witness: the amended statement at the one-sample signal [1/2],
40 Hz, speed 1 for the short-signal clause, and at the silent one-entry
table [0] for the degradation clause. -/
theorem c2_witness :
    ((0 : ℤ) = 0 ∧ amplitude_table [1/2] 2 0 = [] ∧
      create_audio_visualization [1/2] 40 1 5 30 = .error .valueError) ∧
    normalize ([0] : List ℝ) = .ok [0] :=
  ⟨c2_thm.1 [1/2] 40 1 5 30 (1/20) 2 0 segment_short_signal
      (by norm_num) (by norm_num),
   c2_thm.2 [0] (by simp) (by simp)⟩

/-- C10: two runs of create_audio_visualization that differ only in the
fps argument produce identical results in every component (amplitudes,
display vectors and saved frame rate), and whenever a run succeeds the
frame rate it saves is int(1 / frame_duration) for the frame_duration
computed by segmentation: the fps parameter is accepted but never used. -/
theorem c10_thm (y : List ℚ) (sr : ℕ) (speed : ℚ) (num_bars : ℕ)
    (fps1 fps2 : ℤ) :
    create_audio_visualization y sr speed num_bars fps1 =
      create_audio_visualization y sr speed num_bars fps2 ∧
    ((create_audio_visualization y sr speed num_bars fps1).toOption.map
        (fun r => r.2.2) =
      (segment y.length sr speed).toOption.map (fun c => saved_fps c.1) ∨
      (create_audio_visualization y sr speed num_bars fps1).toOption
        = none) := by
  refine ⟨rfl, ?_⟩
  unfold create_audio_visualization
  rcases hseg : segment y.length sr speed with e | ⟨fd, spf, nf⟩
  · right
    rfl
  · rcases hnorm : normalize (amplitude_table y spf nf) with e | table
    · right
      simp only [hnorm]
      rfl
    · left
      simp only [hnorm]
      rfl

end WaveViz
